import Mathlib

/-!
Verification of the precision-rewriting and asset-audit scripts.

The development shallowly embeds the two scripts:

* `restore_fp32_onnx.py`: `convert_fp16_to_fp32` loads an ONNX graph and
  mutates it in place, widening half-precision (FLOAT16, enum value 10)
  tensors and type tags to single precision (FLOAT, enum value 1), then
  saves the result.  Machine integers are modelled as `Nat`, byte strings
  as `List Nat` (each entry a byte), protobuf messages as structures with
  protobuf default values for unset fields, and the Python exception
  behaviour of `numpy.frombuffer` as `Except String`.
* `verify_model_chain.py`: extraction of an identifier-to-path mapping
  from manifest lines and reconciliation of UI identifiers against that
  mapping and a filesystem-presence predicate.
-/

/-- Classification of an IEEE-754 binary value for exactness statements.
A finite value is recorded as a sign bit together with its magnitude scaled
by `2 ^ 149`, which is an integer for every finite half- or single-precision
value; infinities keep their sign; all NaNs collapse to `nan`. -/
inductive FpClass where
  | finite : Bool → Nat → FpClass
  | inf : Bool → FpClass
  | nan : FpClass
deriving DecidableEq

/-- Value denoted by a 16-bit pattern read as IEEE-754 binary16
(sign / 5-bit exponent, bias 15 / 10-bit fraction). -/
def half16Val (b : Nat) : FpClass :=
  let s := b / 2 ^ 15 % 2 == 1
  let e := b / 2 ^ 10 % 32
  let f := b % 2 ^ 10
  if e = 0 then FpClass.finite s (f * 2 ^ 125)
  else if e = 31 then (if f = 0 then FpClass.inf s else FpClass.nan)
  else FpClass.finite s ((2 ^ 10 + f) * 2 ^ (e + 124))

/-- Value denoted by a 32-bit pattern read as IEEE-754 binary32
(sign / 8-bit exponent, bias 127 / 23-bit fraction). -/
def float32Val (w : Nat) : FpClass :=
  let s := w / 2 ^ 31 % 2 == 1
  let e := w / 2 ^ 23 % 256
  let f := w % 2 ^ 23
  if e = 0 then FpClass.finite s f
  else if e = 255 then (if f = 0 then FpClass.inf s else FpClass.nan)
  else FpClass.finite s ((2 ^ 23 + f) * 2 ^ (e - 1))

/-- Bit length of a nonzero half-precision fraction field (at most 10 bits),
used to normalize subnormal inputs during widening. -/
def halfFracBitLen (f : Nat) : Nat :=
  if f ≥ 512 then 10
  else if f ≥ 256 then 9
  else if f ≥ 128 then 8
  else if f ≥ 64 then 7
  else if f ≥ 32 then 6
  else if f ≥ 16 then 5
  else if f ≥ 8 then 4
  else if f ≥ 4 then 3
  else if f ≥ 2 then 2
  else 1

/-- Widening of one IEEE-754 binary16 bit pattern to the binary32 bit pattern
of the same value, as performed element-wise by
`numpy.ndarray.astype(numpy.float32)` on a `float16` array (the library call
the script delegates the numeric conversion to). -/
def float16ToFloat32Bits (b : Nat) : Nat :=
  let s := b / 2 ^ 15 % 2
  let e := b / 2 ^ 10 % 32
  let f := b % 2 ^ 10
  if e = 0 then
    if f = 0 then s * 2 ^ 31
    else
      let L := halfFracBitLen f
      s * 2 ^ 31 + (L + 102) * 2 ^ 23 + (f * 2 ^ (24 - L) - 2 ^ 23)
  else if e = 31 then s * 2 ^ 31 + 255 * 2 ^ 23 + f * 2 ^ 13
  else s * 2 ^ 31 + (e + 112) * 2 ^ 23 + f * 2 ^ 13

example : float16ToFloat32Bits 0x3E00 = 0x3FC00000 := by decide

/-- Reading back a binary32 pattern assembled from a sign bit, a biased
exponent and a fraction field recovers the three fields. -/
theorem float32Val_decompose (s E F : Nat) (hs : s < 2) (hE : E < 256) (hF : F < 2 ^ 23) :
    float32Val (s * 2 ^ 31 + E * 2 ^ 23 + F) =
      if E = 0 then FpClass.finite (s == 1) F
      else if E = 255 then (if F = 0 then FpClass.inf (s == 1) else FpClass.nan)
      else FpClass.finite (s == 1) ((2 ^ 23 + F) * 2 ^ (E - 1)) := by
  have h1 : (s * 2 ^ 31 + E * 2 ^ 23 + F) / 2 ^ 31 % 2 = s := by omega
  have h2 : (s * 2 ^ 31 + E * 2 ^ 23 + F) / 2 ^ 23 % 256 = E := by omega
  have h3 : (s * 2 ^ 31 + E * 2 ^ 23 + F) % 2 ^ 23 = F := by omega
  simp only [float32Val]
  rw [h1, h2, h3]

/-- The bit-length chain used for subnormal normalization is correct. -/
theorem halfFracBitLen_spec (f : Nat) (h1 : 1 ≤ f) (h2 : f < 1024) :
    1 ≤ halfFracBitLen f ∧ halfFracBitLen f ≤ 10 ∧
      2 ^ (halfFracBitLen f - 1) ≤ f ∧ f < 2 ^ halfFracBitLen f := by
  unfold halfFracBitLen
  split_ifs <;> norm_num <;> omega

set_option maxHeartbeats 1600000 in
/-- Widening a half-precision bit pattern to single precision is value-exact:
zeros, subnormals, normals, infinities and NaNs all map to their
single-precision counterparts. -/
theorem float16_widen_exact (b : Nat) (hb : b < 65536) :
    float32Val (float16ToFloat32Bits b) = half16Val b := by
  obtain ⟨s, e, f, hs, he, hf, hsv, hev, hfv⟩ :
      ∃ s e f, s < 2 ∧ e < 32 ∧ f < 1024 ∧
        b / 2 ^ 15 % 2 = s ∧ b / 2 ^ 10 % 32 = e ∧ b % 2 ^ 10 = f :=
    ⟨b / 2 ^ 15 % 2, b / 2 ^ 10 % 32, b % 2 ^ 10, by omega, by omega, by omega, rfl, rfl, rfl⟩
  simp only [float16ToFloat32Bits, half16Val, hsv, hev, hfv]
  split_ifs with he0 hf0 he31 hf0x
  · subst hf0
    rw [show s * 2 ^ 31 = s * 2 ^ 31 + 0 * 2 ^ 23 + 0 by ring,
      float32Val_decompose s 0 0 hs (by norm_num) (by norm_num)]
    norm_num
  · obtain ⟨hL1, hL10, hLlo, hLhi⟩ := halfFracBitLen_spec f (by omega) hf
    set L := halfFracBitLen f with hLdef
    clear_value L
    have hE : L + 102 < 256 := by omega
    have hF : f * 2 ^ (24 - L) - 2 ^ 23 < 2 ^ 23 := by
      interval_cases L <;> norm_num at hLhi ⊢ <;> omega
    rw [float32Val_decompose s (L + 102) (f * 2 ^ (24 - L) - 2 ^ 23) hs hE hF]
    rw [if_neg (by omega), if_neg (by omega)]
    refine congrArg (FpClass.finite (s == 1)) ?_
    interval_cases L <;> norm_num at hLlo hLhi ⊢ <;> omega
  · rw [float32Val_decompose s 255 (f * 2 ^ 13) hs (by norm_num) (by omega)]
    rw [if_neg (by omega), if_pos rfl, if_pos (by omega)]
  · rw [float32Val_decompose s 255 (f * 2 ^ 13) hs (by norm_num) (by omega)]
    rw [if_neg (by omega), if_pos rfl, if_neg (by omega)]
  · rw [float32Val_decompose s (e + 112) (f * 2 ^ 13) hs (by omega) (by omega)]
    rw [if_neg (by omega), if_neg (by omega)]
    refine congrArg (FpClass.finite (s == 1)) ?_
    have he1 : 1 ≤ e := by omega
    have he30 : e ≤ 30 := by omega
    interval_cases e <;> norm_num <;> omega

/-- Decoding of a raw byte string into 16-bit little-endian words, as
`numpy.frombuffer(raw_data, dtype=numpy.float16)` views it; `none` models the
`ValueError` numpy raises when the byte length is not a multiple of the
element size. -/
def bytesToHalfWords : List Nat → Option (List Nat)
  | [] => some []
  | [_] => none
  | b0 :: b1 :: rest => (bytesToHalfWords rest).map (fun ws => (b0 + 256 * b1) :: ws)

/-- Little-endian byte serialization of a sequence of 32-bit words, as
`numpy.ndarray.tobytes` lays out a `float32` array. -/
def wordsToBytes32 : List Nat → List Nat
  | [] => []
  | w :: ws =>
    w % 256 :: w / 256 % 256 :: w / 65536 % 256 :: w / 16777216 % 256 ::
      wordsToBytes32 ws

/-- Decoding of a raw byte string into 32-bit little-endian words, used to
state what the rewritten payload denotes. -/
def bytesToWords32 : List Nat → Option (List Nat)
  | [] => some []
  | b0 :: b1 :: b2 :: b3 :: rest =>
      (bytesToWords32 rest).map
        (fun ws => (b0 + 256 * b1 + 65536 * b2 + 16777216 * b3) :: ws)
  | _ => none

/-- ONNX `TensorProto` message, restricted to the fields the script touches
plus representative untouched fields (`dims`, `int32_data`) for frame
statements.  `data_type` holds the ONNX element-type enum: `FLOAT = 1`,
`FLOAT16 = 10`.  Unset protobuf fields default to zero / empty. -/
structure TensorProto where
  name : String := ""
  data_type : Nat := 0
  dims : List Nat := []
  raw_data : List Nat := []
  int32_data : List Nat := []
deriving DecidableEq

/-- ONNX element-type enum value `FLOAT` (single precision). -/
def TensorProto.FLOAT : Nat := 1

/-- ONNX element-type enum value `FLOAT16` (half precision). -/
def TensorProto.FLOAT16 : Nat := 10

/-- ONNX `ValueInfoProto`, flattened to the one field the script reads and
writes (`type.tensor_type.elem_type`) plus its name. -/
structure ValueInfoProto where
  name : String := ""
  elem_type : Nat := 0
deriving DecidableEq

/-- ONNX `AttributeProto`, modelled protobuf-style: every singular field is
present with a default value, and the `type` tag records the attribute kind
(`INT = 2`, `TENSOR = 4`, `TENSORS = 9`, per `onnx.AttributeProto`). -/
structure AttributeProto where
  name : String := ""
  type : Nat := 0
  i : Nat := 0
  f : Nat := 0
  s : String := ""
  t : TensorProto := {}
  tensors : List TensorProto := []
deriving DecidableEq

/-- ONNX attribute-kind enum value `TENSOR` (a single embedded tensor). -/
def AttributeProto.TENSOR : Nat := 4

/-- ONNX attribute-kind enum value `TENSORS` (a list of embedded tensors). -/
def AttributeProto.TENSORS : Nat := 9

/-- ONNX `NodeProto`: one operator invocation. -/
structure NodeProto where
  name : String := ""
  op_type : String := ""
  input : List String := []
  output : List String := []
  attrs : List AttributeProto := []
deriving DecidableEq

/-- ONNX `GraphProto`, restricted to the sequences the script iterates. -/
structure GraphProto where
  name : String := ""
  initializer : List TensorProto := []
  input : List ValueInfoProto := []
  output : List ValueInfoProto := []
  value_info : List ValueInfoProto := []
  node : List NodeProto := []
deriving DecidableEq

/-- Effectful map over a list in the `Except` monad, mirroring a Python
`for` loop whose body may raise: the first raised error aborts the whole
iteration. -/
def mapE (f : α → Except ε β) : List α → Except ε (List β)
  | [] => Except.ok []
  | a :: as =>
    match f a with
    | Except.error e => Except.error e
    | Except.ok b =>
      match mapE f as with
      | Except.error e => Except.error e
      | Except.ok bs => Except.ok (b :: bs)

/-- Error message raised by `numpy.frombuffer` on a malformed byte length. -/
def bufferSizeError : String := "buffer size must be a multiple of element size"

/-- Per-tensor body of the loops at `restore_fp32_onnx.py:34-51` and
`restore_fp32_onnx.py:78-87`: a FLOAT16-tagged tensor with nonempty
`raw_data` is reinterpreted as little-endian half-precision words, widened
element-wise and stored back with `data_type = FLOAT`; a FLOAT16 tensor with
empty `raw_data` and any tensor of another element type pass through
unchanged.  An odd byte length raises (models the numpy `ValueError`). -/
def convertTensorFp16 (t : TensorProto) : Except String TensorProto :=
  if t.data_type = TensorProto.FLOAT16 then
    if t.raw_data.isEmpty then Except.ok t
    else
      match bytesToHalfWords t.raw_data with
      | none => Except.error bufferSizeError
      | some ws =>
        Except.ok
          { t with
            raw_data := wordsToBytes32 (ws.map float16ToFloat32Bits)
            data_type := TensorProto.FLOAT }
  else Except.ok t

/-- Type-tag rewrite for inputs, outputs and intermediate value infos
(`restore_fp32_onnx.py:54-67`). -/
def convertValueInfo (v : ValueInfoProto) : ValueInfoProto :=
  if v.elem_type = TensorProto.FLOAT16 then { v with elem_type := TensorProto.FLOAT }
  else v

/-- Cast-node fix (`restore_fp32_onnx.py:71-75`): on a `Cast` node, an
attribute named `to` whose integer payload is FLOAT16 is redirected to
FLOAT. -/
def castFixAttr (a : AttributeProto) : AttributeProto :=
  if a.name = "to" ∧ a.i = TensorProto.FLOAT16 then { a with i := TensorProto.FLOAT }
  else a

/-- Embedded-tensor attribute rewrite (`restore_fp32_onnx.py:78-87`): only
attributes of kind `TENSOR` are inspected; their embedded tensor is
converted like an initializer.  All other kinds — including `TENSORS`
lists — pass through untouched. -/
def convertAttr (a : AttributeProto) : Except String AttributeProto :=
  if a.type = AttributeProto.TENSOR then
    match convertTensorFp16 a.t with
    | Except.error e => Except.error e
    | Except.ok t' => Except.ok { a with t := t' }
  else Except.ok a

/-- Per-node rewrite (`restore_fp32_onnx.py:70-87`): the Cast `to` fix on
`Cast` nodes, then the embedded-tensor attribute rewrite on every node. -/
def convertNode (n : NodeProto) : Except String NodeProto :=
  let attrs0 := if n.op_type = "Cast" then n.attrs.map castFixAttr else n.attrs
  match mapE convertAttr attrs0 with
  | Except.error e => Except.error e
  | Except.ok attrs1 => Except.ok { n with attrs := attrs1 }

/-- Whole-graph precision rewrite (`restore_fp32_onnx.py:31-87`): the
in-place mutation performed between `onnx.load` and `onnx.save`, as a
function on graphs; an uncaught numpy error anywhere yields `Except.error`
and no output graph is produced (the script then never reaches
`onnx.save`). -/
def convertGraph (g : GraphProto) : Except String GraphProto :=
  match mapE convertTensorFp16 g.initializer with
  | Except.error e => Except.error e
  | Except.ok inits =>
    match mapE convertNode g.node with
    | Except.error e => Except.error e
    | Except.ok nodes =>
      Except.ok
        { g with
          initializer := inits
          input := g.input.map convertValueInfo
          output := g.output.map convertValueInfo
          value_info := g.value_info.map convertValueInfo
          node := nodes }

example :
    convertTensorFp16 { name := "w", data_type := 10, raw_data := [0, 62] } =
      Except.ok { name := "w", data_type := 1, raw_data := [0, 0, 192, 63] } := by
  rfl

/-- Result of `onnx.load` on one file: the deserialized graph, or the
exception the loader raised. -/
inductive LoadResult where
  | failure : String → LoadResult
  | loaded : GraphProto → LoadResult
deriving DecidableEq

/-- One entry of the batch in `restore_fp32_onnx.py:93-109`: whether the
input path exists, and what loading it would produce. -/
structure ModelFile where
  present : Bool
  load : LoadResult
deriving DecidableEq

/-- Observable per-file outcome of the batch driver: skipped because the
input is missing, reported load failure (the `except` branch returning
`False`), or a successful conversion of the loaded graph. -/
inductive FileOutcome where
  | skipped : FileOutcome
  | loadFailed : FileOutcome
  | converted : GraphProto → FileOutcome
deriving DecidableEq

/-- Processing of one batch entry (`restore_fp32_onnx.py:102-109` together
with `convert_fp16_to_fp32`): a missing input is skipped, a load failure is
caught and reported (the function returns `False`), and any error raised by
the conversion itself propagates out as `Except.error`. -/
def processFile (file : ModelFile) : Except String FileOutcome :=
  if file.present then
    match file.load with
    | LoadResult.failure _ => Except.ok FileOutcome.loadFailed
    | LoadResult.loaded g =>
      match convertGraph g with
      | Except.error e => Except.error e
      | Except.ok g' => Except.ok (FileOutcome.converted g')
  else Except.ok FileOutcome.skipped

/-- The `for inp, outp in models` loop of `restore_fp32_onnx.py:102-109`:
files are processed in order; an exception escaping `convert_fp16_to_fp32`
is not caught anywhere, so it terminates the loop.  The result collects the
outcomes of the files actually processed and the uncaught error, if any. -/
def runBatch : List ModelFile → List FileOutcome × Option String
  | [] => ([], none)
  | file :: rest =>
    match processFile file with
    | Except.error e => ([], some e)
    | Except.ok o =>
      let r := runBatch rest
      (o :: r.1, r.2)

/-- Python-dict insertion on an association list: an existing key keeps its
position and gets the new value, a new key is appended. -/
def dictInsert [DecidableEq α] (k : α) (v : β) : List (α × β) → List (α × β)
  | [] => [(k, v)]
  | (k', v') :: rest =>
    if k' = k then (k, v) :: rest else (k', v') :: dictInsert k v rest

/-- Python-dict lookup on an association list built by `dictInsert`. -/
def dictLookup [DecidableEq α] (k : α) : List (α × β) → Option β
  | [] => none
  | (k', v') :: rest => if k' = k then some v' else dictLookup k rest

/-- Reconciliation loop of `verify_model_chain.py:45-54`: every UI
identifier occurrence, in order, is checked against the mapping, and a
mapped identifier is checked against filesystem presence of its source
path. -/
def reconcile (ui_ids : List String) (mappings : List (String × String))
    (pathExists : String → Bool) : List String × List (String × String) :=
  match ui_ids with
  | [] => ([], [])
  | uid :: rest =>
    let r := reconcile rest mappings pathExists
    match dictLookup uid mappings with
    | none => (uid :: r.1, r.2)
    | some src => if pathExists src then r else (r.1, (uid, src) :: r.2)

/-- Substring test on character lists (Python `in` on `str`). -/
def containsSub (pat : List Char) : List Char → Bool
  | [] => pat.isEmpty
  | c :: rest => pat.isPrefixOf (c :: rest) || containsSub pat rest

/-- Characters before the first occurrence of `pat` — Python
`line.split(pat)[0]` (when `pat` does not occur, the whole line). -/
def beforeFirst (pat : List Char) : List Char → List Char
  | [] => []
  | c :: rest =>
    if pat.isPrefixOf (c :: rest) then [] else c :: beforeFirst pat rest

/-- Python regex `\s` character class over ASCII. -/
def isPySpace (c : Char) : Bool :=
  c = ' ' || c = Char.ofNat 9 || c = Char.ofNat 10 ||
    c = Char.ofNat 13 || c = Char.ofNat 11 || c = Char.ofNat 12

/-- ASCII single-quote character. -/
def quoteChar : Char := Char.ofNat 39

/-- Parsing of `'([^']+)'` at the head of the input: a quoted, nonempty
capture; returns the capture and the rest after the closing quote. -/
def parseQuoted (s : List Char) : Option (List Char × List Char) :=
  match s with
  | [] => none
  | c :: rest =>
    if c = quoteChar then
      let cap := rest.takeWhile (fun d => d ≠ quoteChar)
      if cap.isEmpty then none
      else
        match rest.drop cap.length with
        | c2 :: rest2 => if c2 = quoteChar then some (cap, rest2) else none
        | [] => none
    else none

/-- Attempted match of the pattern
`src:\s*'([^']+)',\s*dest:\s*'([^']+)'` anchored at the head of the input
(`verify_model_chain.py:26`); every quantifier in the pattern is
deterministic, so this parse is exact. -/
def parseEntryAt (s : List Char) : Option (List Char × List Char) := do
  let s1 ← if ("src:".data.isPrefixOf s) then some (s.drop 4) else none
  let s2 := s1.dropWhile isPySpace
  let (src, s3) ← parseQuoted s2
  let s4 ← if (",".data.isPrefixOf s3) then some (s3.drop 1) else none
  let s5 := s4.dropWhile isPySpace
  let s6 ← if ("dest:".data.isPrefixOf s5) then some (s5.drop 5) else none
  let s7 := s6.dropWhile isPySpace
  let (dest, _) ← parseQuoted s7
  some (src, dest)

/-- `re.search` of the entry pattern: the leftmost match wins
(`verify_model_chain.py:26`). -/
def searchEntry : List Char → Option (List Char × List Char)
  | [] => none
  | c :: rest =>
    match parseEntryAt (c :: rest) with
    | some r => some r
    | none => searchEntry rest

/-- ASCII slash character. -/
def slashChar : Char := Char.ofNat 47

/-- Final path segment — `os.path.basename` on a POSIX path. -/
def basenameChars (s : List Char) : List Char :=
  (s.reverse.takeWhile (fun c => c ≠ slashChar)).reverse

/-- The literal pattern `.onnx` as characters. -/
def onnxPat : List Char := ".onnx".data

/-- Fuel-driven worker for Python `str.replace(".onnx", "")`: removes every
(non-overlapping, leftmost-first) occurrence of `.onnx`.  The fuel only
bounds recursion depth and never runs out when initialized with the input
length. -/
def removeAllOnnxAux : Nat → List Char → List Char
  | 0, s => s
  | _ + 1, [] => []
  | fuel + 1, c :: rest =>
    if onnxPat.isPrefixOf (c :: rest) then removeAllOnnxAux fuel (rest.drop 4)
    else c :: removeAllOnnxAux fuel rest

/-- Python `basename.replace(".onnx", "")` (`verify_model_chain.py:33`):
every occurrence of the substring is removed. -/
def removeAllOnnx (s : List Char) : List Char :=
  removeAllOnnxAux s.length s

/-- Stripping of one trailing `.onnx` suffix, the reading asserted by the
specification for the manifest identifier (for comparison against the
implementation, which removes every occurrence). -/
def stripSuffixOnnx (s : List Char) : List Char :=
  if onnxPat.isSuffixOf s then s.take (s.length - 5) else s

/-- Per-line mapping extraction (`verify_model_chain.py:22-34`): a line is
considered when it contains `src:` and `dest:` and the text before the
first `src:` carries no `//`; the regex match then yields the source path
and the destination, whose basename with `.onnx` occurrences removed is the
identifier. -/
def processLine (line : List Char) : Option (List Char × List Char) :=
  if containsSub "src:".data line && containsSub "dest:".data line &&
      !containsSub "//".data (beforeFirst "src:".data line) then
    match searchEntry line with
    | some (src, dest) => some (removeAllOnnx (basenameChars dest), src)
    | none => none
  else none

/-- One step of mapping accumulation (`verify_model_chain.py:27-34`): a
line contributing an entry writes it into the dict, any other line leaves
the dict alone. -/
def buildStep (m : List (List Char × List Char)) (line : List Char) :
    List (List Char × List Char) :=
  match processLine line with
  | some e => dictInsert e.1 e.2 m
  | none => m

/-- Mapping accumulation over the manifest lines
(`verify_model_chain.py:19-34`): each extracted entry is written into the
dict, later entries overwriting earlier ones with the same identifier. -/
def buildMappings (lines : List (List Char)) : List (List Char × List Char) :=
  lines.foldl buildStep []

/-- Last-write-wins reading of an entry sequence: the value of the last
entry carrying the requested key. -/
def lastWriteLookup : List (List Char × List Char) → List Char → Option (List Char)
  | [], _ => none
  | (k', v') :: rest, k =>
    match lastWriteLookup rest k with
    | some v => some v
    | none => if k' = k then some v' else none

/-- Spec-side reachability predicate: some TensorView (top-level constant,
or embedded in a `TENSOR` or `TENSORS` attribute) or type declaration in the
graph is tagged HALF. -/
def graphHasHalfView (g : GraphProto) : Bool :=
  g.initializer.any (fun t => t.data_type == TensorProto.FLOAT16) ||
  g.input.any (fun v => v.elem_type == TensorProto.FLOAT16) ||
  g.output.any (fun v => v.elem_type == TensorProto.FLOAT16) ||
  g.value_info.any (fun v => v.elem_type == TensorProto.FLOAT16) ||
  g.node.any (fun n =>
    n.attrs.any (fun a =>
      (a.type == AttributeProto.TENSOR && a.t.data_type == TensorProto.FLOAT16) ||
      (a.type == AttributeProto.TENSORS &&
        a.tensors.any (fun t => t.data_type == TensorProto.FLOAT16))))

/-- Spec-side predicate: the HALF enum value occurs nowhere in the graph —
no TensorView, no type declaration, and no attribute integer payload equal
to HALF on any node. -/
def graphNoHalfAnywhere (g : GraphProto) : Bool :=
  !graphHasHalfView g &&
  g.node.all (fun n =>
    n.attrs.all (fun a => !(a.name == "to" && a.i == TensorProto.FLOAT16)))

/-- Spec-side count of HALF-tagged TensorViews whose raw byte length is not
a whole multiple of two (top-level constants and singleton embedded
attributes). -/
def badPayloadSites (g : GraphProto) : Nat :=
  (g.initializer.filter
    (fun t => t.data_type == TensorProto.FLOAT16 && t.raw_data.length % 2 == 1)).length +
  (g.node.map (fun n =>
    (n.attrs.filter (fun a =>
      a.type == AttributeProto.TENSOR && a.t.data_type == TensorProto.FLOAT16 &&
        a.t.raw_data.length % 2 == 1)).length)).sum

/-- Mapping every element of a list to itself is the identity. -/
theorem map_eq_self_of_forall {α : Type} (f : α → α) :
    ∀ l : List α, (∀ a ∈ l, f a = a) → l.map f = l
  | [], _ => rfl
  | a :: as, h => by
    simp only [List.map_cons, h a (by simp)]
    rw [map_eq_self_of_forall f as (fun b hb => h b (by simp [hb]))]

/-- Length preservation for `mapE` on success. -/
theorem mapE_ok_length {α β ε : Type} (f : α → Except ε β) :
    ∀ l l', mapE f l = Except.ok l' → l'.length = l.length
  | [], l', h => by
    simp only [mapE, Except.ok.injEq] at h
    simp [← h]
  | a :: as, l', h => by
    simp only [mapE] at h
    cases hfa : f a with
    | error e => rw [hfa] at h; exact absurd h (by simp)
    | ok b =>
      rw [hfa] at h
      cases hrest : mapE f as with
      | error e => rw [hrest] at h; exact absurd h (by simp)
      | ok bs =>
        rw [hrest] at h
        simp only [Except.ok.injEq] at h
        simp [← h, mapE_ok_length f as bs hrest]

/-- Index-wise characterization of `mapE` on success. -/
theorem mapE_ok_getElem? {α β ε : Type} (f : α → Except ε β) :
    ∀ l l', mapE f l = Except.ok l' →
      ∀ (i : Nat) (a : α), l[i]? = some a → ∃ b, f a = Except.ok b ∧ l'[i]? = some b
  | [], l', h, i, a, ha => by simp at ha
  | x :: xs, l', h, i, a, ha => by
    simp only [mapE] at h
    cases hfx : f x with
    | error e => rw [hfx] at h; exact absurd h (by simp)
    | ok b =>
      rw [hfx] at h
      cases hrest : mapE f xs with
      | error e => rw [hrest] at h; exact absurd h (by simp)
      | ok bs =>
        rw [hrest] at h
        simp only [Except.ok.injEq] at h
        cases i with
        | zero =>
          simp only [List.getElem?_cons_zero, Option.some.injEq] at ha
          exact ⟨b, by rw [← ha]; exact hfx, by simp [← h]⟩
        | succ n =>
          simp only [List.getElem?_cons_succ] at ha
          obtain ⟨c, hc1, hc2⟩ := mapE_ok_getElem? f xs bs hrest n a ha
          exact ⟨c, hc1, by simp [← h, hc2]⟩

/-- Membership characterization of `mapE` on success: every output element
is the successful image of some input element. -/
theorem mapE_ok_mem {α β ε : Type} (f : α → Except ε β) :
    ∀ l l', mapE f l = Except.ok l' →
      ∀ b ∈ l', ∃ a ∈ l, f a = Except.ok b
  | [], l', h, b, hb => by
    simp only [mapE, Except.ok.injEq] at h
    rw [← h] at hb
    simp at hb
  | x :: xs, l', h, b, hb => by
    simp only [mapE] at h
    cases hfx : f x with
    | error e => rw [hfx] at h; exact absurd h (by simp)
    | ok c =>
      rw [hfx] at h
      cases hrest : mapE f xs with
      | error e => rw [hrest] at h; exact absurd h (by simp)
      | ok bs =>
        rw [hrest] at h
        simp only [Except.ok.injEq] at h
        rw [← h] at hb
        cases List.mem_cons.mp hb with
        | inl hc => exact ⟨x, by simp, by rw [← hc] at hfx; exact hfx⟩
        | inr hc =>
          obtain ⟨a, ha1, ha2⟩ := mapE_ok_mem f xs bs hrest b hc
          exact ⟨a, by simp [ha1], ha2⟩

/-- A pointwise-identity effectful map succeeds with the original list. -/
theorem mapE_ok_of_forall {α β : Type} (f : α → Except β α) :
    ∀ l : List α, (∀ a ∈ l, f a = Except.ok a) → mapE f l = Except.ok l
  | [], _ => rfl
  | a :: as, h => by
    simp only [mapE, h a (by simp)]
    rw [mapE_ok_of_forall f as (fun b hb => h b (by simp [hb]))]

/-- Idempotence transport for `mapE`. -/
theorem mapE_idem {α β : Type} (f : α → Except β α)
    (hf : ∀ a b, f a = Except.ok b → f b = Except.ok b) :
    ∀ l l', mapE f l = Except.ok l' → mapE f l' = Except.ok l'
  | [], l', h => by
    simp only [mapE, Except.ok.injEq] at h
    rw [← h]
    rfl
  | a :: as, l', h => by
    simp only [mapE] at h
    cases hfa : f a with
    | error e => rw [hfa] at h; exact absurd h (by simp)
    | ok b =>
      rw [hfa] at h
      cases hrest : mapE f as with
      | error e => rw [hrest] at h; exact absurd h (by simp)
      | ok bs =>
        rw [hrest] at h
        simp only [Except.ok.injEq] at h
        rw [← h]
        simp only [mapE, hf a b hfa, mapE_idem f hf as bs hrest]

/-- If any input element fails, `mapE` cannot succeed. -/
theorem mapE_error_of_mem {α β ε : Type} (f : α → Except ε β) :
    ∀ l, (∃ a ∈ l, ∀ b, f a ≠ Except.ok b) → ∀ l', mapE f l ≠ Except.ok l'
  | [], h, l' => by simp at h
  | x :: xs, h, l' => by
    intro hcontra
    simp only [mapE] at hcontra
    obtain ⟨a, ha, hfa⟩ := h
    cases hfx : f x with
    | error e => rw [hfx] at hcontra; simp at hcontra
    | ok b =>
      rw [hfx] at hcontra
      cases List.mem_cons.mp ha with
      | inl hax => exact hfa b (by rw [hax]; exact hfx)
      | inr hax =>
        cases hrest : mapE f xs with
        | error e => rw [hrest] at hcontra; simp at hcontra
        | ok bs => exact mapE_error_of_mem f xs ⟨a, hax, hfa⟩ bs hrest

/-- A tensor of any element type other than HALF passes through the
per-tensor conversion unchanged. -/
theorem convertTensorFp16_of_ne (t : TensorProto) (h : t.data_type ≠ TensorProto.FLOAT16) :
    convertTensorFp16 t = Except.ok t := by
  simp [convertTensorFp16, h]

/-- A HALF tensor with empty raw payload passes through unchanged. -/
theorem convertTensorFp16_of_empty (t : TensorProto) (h : t.data_type = TensorProto.FLOAT16)
    (hraw : t.raw_data = []) : convertTensorFp16 t = Except.ok t := by
  simp [convertTensorFp16, h, hraw]

/-- On success, an output tensor with nonempty raw payload is never
HALF-tagged. -/
theorem convertTensorFp16_ok_not_half (t t' : TensorProto)
    (h : convertTensorFp16 t = Except.ok t') (hraw : t'.raw_data ≠ []) :
    t'.data_type ≠ TensorProto.FLOAT16 := by
  by_cases h10 : t.data_type = TensorProto.FLOAT16
  · by_cases hempty : t.raw_data.isEmpty
    · rw [convertTensorFp16, if_pos h10, if_pos hempty] at h
      cases h
      intro hcontra
      exact hraw (List.isEmpty_iff.mp hempty)
    · rw [convertTensorFp16, if_pos h10, if_neg hempty] at h
      cases hws : bytesToHalfWords t.raw_data with
      | none => rw [hws] at h; exact absurd h (by simp)
      | some ws =>
        rw [hws] at h
        simp only [Except.ok.injEq] at h
        rw [← h]
        simp [TensorProto.FLOAT, TensorProto.FLOAT16]
  · rw [convertTensorFp16_of_ne t h10] at h
    cases h
    exact h10

/-- Idempotence of the per-tensor conversion. -/
theorem convertTensorFp16_idem (t t' : TensorProto)
    (h : convertTensorFp16 t = Except.ok t') : convertTensorFp16 t' = Except.ok t' := by
  by_cases h10 : t.data_type = TensorProto.FLOAT16
  · by_cases hempty : t.raw_data.isEmpty
    · rw [convertTensorFp16, if_pos h10, if_pos hempty] at h
      cases h
      simp [convertTensorFp16, h10, hempty]
    · rw [convertTensorFp16, if_pos h10, if_neg hempty] at h
      cases hws : bytesToHalfWords t.raw_data with
      | none => rw [hws] at h; exact absurd h (by simp)
      | some ws =>
        rw [hws] at h
        simp only [Except.ok.injEq] at h
        rw [← h]
        apply convertTensorFp16_of_ne
        simp [TensorProto.FLOAT, TensorProto.FLOAT16]
  · rw [convertTensorFp16_of_ne t h10] at h
    cases h
    exact convertTensorFp16_of_ne t h10

/-- The Cast fix never leaves its target condition true. -/
theorem castFixAttr_not_cond (a : AttributeProto) :
    ¬((castFixAttr a).name = "to" ∧ (castFixAttr a).i = TensorProto.FLOAT16) := by
  rw [castFixAttr]
  split_ifs with hc
  · rintro ⟨-, hi⟩
    simp [TensorProto.FLOAT, TensorProto.FLOAT16] at hi
  · exact hc

/-- The Cast fix is idempotent. -/
theorem castFixAttr_idem (a : AttributeProto) :
    castFixAttr (castFixAttr a) = castFixAttr a := by
  rw [castFixAttr]
  split_ifs with hc
  · exact absurd hc (castFixAttr_not_cond a)
  · rfl

/-- An attribute of kind other than `TENSOR` passes through the embedded
conversion unchanged. -/
theorem convertAttr_of_ne (a : AttributeProto) (h : a.type ≠ AttributeProto.TENSOR) :
    convertAttr a = Except.ok a := by
  simp [convertAttr, h]

/-- On success the embedded conversion only touches the `t` field. -/
theorem convertAttr_ok_fields (a a' : AttributeProto) (h : convertAttr a = Except.ok a') :
    a'.name = a.name ∧ a'.type = a.type ∧ a'.i = a.i ∧ a'.f = a.f ∧ a'.s = a.s ∧
      a'.tensors = a.tensors := by
  rw [convertAttr] at h
  split_ifs at h with ht
  · cases hconv : convertTensorFp16 a.t with
    | error e => rw [hconv] at h; exact absurd h (by simp)
    | ok t' =>
      rw [hconv] at h
      simp only [Except.ok.injEq] at h
      rw [← h]
      exact ⟨rfl, rfl, rfl, rfl, rfl, rfl⟩
  · cases h
    exact ⟨rfl, rfl, rfl, rfl, rfl, rfl⟩

/-- On success, a `TENSOR`-kind attribute's embedded tensor is the converted
input tensor. -/
theorem convertAttr_ok_t (a a' : AttributeProto) (ht : a.type = AttributeProto.TENSOR)
    (h : convertAttr a = Except.ok a') : convertTensorFp16 a.t = Except.ok a'.t := by
  rw [convertAttr, if_pos ht] at h
  cases hconv : convertTensorFp16 a.t with
  | error e => rw [hconv] at h; exact absurd h (by simp)
  | ok t' =>
    rw [hconv] at h
    simp only [Except.ok.injEq] at h
    rw [← h]

/-- Idempotence of the embedded-attribute conversion. -/
theorem convertAttr_idem (a a' : AttributeProto) (h : convertAttr a = Except.ok a') :
    convertAttr a' = Except.ok a' := by
  by_cases ht : a.type = AttributeProto.TENSOR
  · have ht' : a'.type = AttributeProto.TENSOR := by
      rw [(convertAttr_ok_fields a a' h).2.1, ht]
    have hconv := convertAttr_ok_t a a' ht h
    rw [convertAttr, if_pos ht']
    rw [convertTensorFp16_idem a.t a'.t hconv]
  · rw [convertAttr_of_ne a ht] at h
    cases h
    exact convertAttr_of_ne a ht

/-- Inversion of a successful per-node conversion. -/
theorem convertNode_ok_inv (n n' : NodeProto) (h : convertNode n = Except.ok n') :
    n'.name = n.name ∧ n'.op_type = n.op_type ∧ n'.input = n.input ∧ n'.output = n.output ∧
      mapE convertAttr (if n.op_type = "Cast" then n.attrs.map castFixAttr else n.attrs) =
        Except.ok n'.attrs := by
  rw [convertNode] at h
  cases hm : mapE convertAttr (if n.op_type = "Cast" then n.attrs.map castFixAttr else n.attrs) with
  | error e => rw [hm] at h; exact absurd h (by simp)
  | ok attrs1 =>
    rw [hm] at h
    simp only [Except.ok.injEq] at h
    rw [← h]
    exact ⟨rfl, rfl, rfl, rfl, rfl⟩

/-- Inversion of a successful whole-graph conversion. -/
theorem convertGraph_ok_inv (g g' : GraphProto) (h : convertGraph g = Except.ok g') :
    g'.name = g.name ∧
      mapE convertTensorFp16 g.initializer = Except.ok g'.initializer ∧
      g'.input = g.input.map convertValueInfo ∧
      g'.output = g.output.map convertValueInfo ∧
      g'.value_info = g.value_info.map convertValueInfo ∧
      mapE convertNode g.node = Except.ok g'.node := by
  rw [convertGraph] at h
  cases hi : mapE convertTensorFp16 g.initializer with
  | error e => rw [hi] at h; exact absurd h (by simp)
  | ok inits =>
    rw [hi] at h
    cases hn : mapE convertNode g.node with
    | error e => rw [hn] at h; exact absurd h (by simp)
    | ok nodes =>
      rw [hn] at h
      simp only [Except.ok.injEq] at h
      rw [← h]
      exact ⟨rfl, rfl, rfl, rfl, rfl, rfl⟩

/-- The value-info tag rewrite never leaves a HALF tag. -/
theorem convertValueInfo_not_half (v : ValueInfoProto) :
    (convertValueInfo v).elem_type ≠ TensorProto.FLOAT16 := by
  rw [convertValueInfo]
  split_ifs with hv
  · simp [TensorProto.FLOAT, TensorProto.FLOAT16]
  · exact hv

/-- A value info whose tag is not HALF passes through unchanged. -/
theorem convertValueInfo_of_ne (v : ValueInfoProto) (h : v.elem_type ≠ TensorProto.FLOAT16) :
    convertValueInfo v = v := by
  simp [convertValueInfo, h]

/-- The value-info tag rewrite is idempotent. -/
theorem convertValueInfo_idem (v : ValueInfoProto) :
    convertValueInfo (convertValueInfo v) = convertValueInfo v :=
  convertValueInfo_of_ne (convertValueInfo v) (convertValueInfo_not_half v)

/-- The Cast fix leaves an attribute alone when its condition fails. -/
theorem castFixAttr_of_not_cond (a : AttributeProto)
    (h : ¬(a.name = "to" ∧ a.i = TensorProto.FLOAT16)) : castFixAttr a = a := by
  rw [castFixAttr, if_neg h]

/-- Idempotence of the per-node conversion. -/
theorem convertNode_idem (n n' : NodeProto) (h : convertNode n = Except.ok n') :
    convertNode n' = Except.ok n' := by
  obtain ⟨hname, hop, hin, hout, hattrs⟩ := convertNode_ok_inv n n' h
  have hmapE : mapE convertAttr n'.attrs = Except.ok n'.attrs :=
    mapE_idem convertAttr convertAttr_idem _ _ hattrs
  by_cases hc : n.op_type = "Cast"
  · have hc' : n'.op_type = "Cast" := by rw [hop]; exact hc
    have hfix : n'.attrs.map castFixAttr = n'.attrs := by
      apply map_eq_self_of_forall
      intro a' ha'
      rw [if_pos hc] at hattrs
      obtain ⟨b, hb, hba⟩ := mapE_ok_mem convertAttr _ _ hattrs a' ha'
      obtain ⟨a0, -, hab⟩ := List.mem_map.mp hb
      have hfields := convertAttr_ok_fields b a' hba
      apply castFixAttr_of_not_cond
      intro hcond
      apply castFixAttr_not_cond a0
      rw [hab]
      exact ⟨by rw [← hfields.1]; exact hcond.1, by rw [← hfields.2.2.1]; exact hcond.2⟩
    simp only [convertNode, if_pos hc', hfix, hmapE]
  · have hc' : ¬ n'.op_type = "Cast" := by rw [hop]; exact hc
    simp only [convertNode, if_neg hc', hmapE]

/-- Idempotence of the whole-graph conversion. -/
theorem convertGraph_idem (g g' : GraphProto) (h : convertGraph g = Except.ok g') :
    convertGraph g' = Except.ok g' := by
  obtain ⟨hname, hinit, hin, hout, hvi, hnode⟩ := convertGraph_ok_inv g g' h
  have hinit' : mapE convertTensorFp16 g'.initializer = Except.ok g'.initializer :=
    mapE_idem convertTensorFp16 convertTensorFp16_idem _ _ hinit
  have hnode' : mapE convertNode g'.node = Except.ok g'.node :=
    mapE_idem convertNode convertNode_idem _ _ hnode
  have hvin : g'.input.map convertValueInfo = g'.input := by
    rw [hin]
    apply map_eq_self_of_forall
    intro v hv
    obtain ⟨v0, -, hv0⟩ := List.mem_map.mp hv
    rw [← hv0]
    exact convertValueInfo_idem v0
  have hvout : g'.output.map convertValueInfo = g'.output := by
    rw [hout]
    apply map_eq_self_of_forall
    intro v hv
    obtain ⟨v0, -, hv0⟩ := List.mem_map.mp hv
    rw [← hv0]
    exact convertValueInfo_idem v0
  have hvvi : g'.value_info.map convertValueInfo = g'.value_info := by
    rw [hvi]
    apply map_eq_self_of_forall
    intro v hv
    obtain ⟨v0, -, hv0⟩ := List.mem_map.mp hv
    rw [← hv0]
    exact convertValueInfo_idem v0
  simp only [convertGraph, hinit', hnode', hvin, hvout, hvvi]

/-- A byte string of odd length has no half-word decoding (numpy raises). -/
theorem bytesToHalfWords_none_of_odd :
    ∀ l : List Nat, l.length % 2 = 1 → bytesToHalfWords l = none
  | [], h => by simp at h
  | [_], _ => rfl
  | b0 :: b1 :: rest, h => by
    have hrest : rest.length % 2 = 1 := by simp at h; omega
    simp [bytesToHalfWords, bytesToHalfWords_none_of_odd rest hrest]

/-- A byte string of even length decodes to half-words. -/
theorem bytesToHalfWords_some_of_even :
    ∀ l : List Nat, l.length % 2 = 0 → ∃ ws, bytesToHalfWords l = some ws
  | [], _ => ⟨[], rfl⟩
  | [_], h => by simp at h
  | b0 :: b1 :: rest, h => by
    have hrest : rest.length % 2 = 0 := by simp at h; omega
    obtain ⟨ws, hws⟩ := bytesToHalfWords_some_of_even rest hrest
    exact ⟨(b0 + 256 * b1) :: ws, by simp [bytesToHalfWords, hws]⟩

/-- Decoding halves the length. -/
theorem bytesToHalfWords_length :
    ∀ l ws, bytesToHalfWords l = some ws → l.length = 2 * ws.length
  | [], ws, h => by
    simp only [bytesToHalfWords, Option.some.injEq] at h
    simp [← h]
  | [_], ws, h => by simp [bytesToHalfWords] at h
  | b0 :: b1 :: rest, ws, h => by
    simp only [bytesToHalfWords] at h
    cases hrest : bytesToHalfWords rest with
    | none => rw [hrest] at h; simp at h
    | some ws' =>
      rw [hrest] at h
      simp only [Option.map_some', Option.some.injEq] at h
      have := bytesToHalfWords_length rest ws' hrest
      simp [← h, this]
      omega

/-- Decoded half-words of genuine bytes fit in 16 bits. -/
theorem bytesToHalfWords_lt :
    ∀ l ws, (∀ b ∈ l, b < 256) → bytesToHalfWords l = some ws → ∀ w ∈ ws, w < 65536
  | [], ws, _, h => by
    simp only [bytesToHalfWords, Option.some.injEq] at h
    simp [← h]
  | [_], ws, _, h => by simp [bytesToHalfWords] at h
  | b0 :: b1 :: rest, ws, hb, h => by
    simp only [bytesToHalfWords] at h
    cases hrest : bytesToHalfWords rest with
    | none => rw [hrest] at h; simp at h
    | some ws' =>
      rw [hrest] at h
      simp only [Option.map_some', Option.some.injEq] at h
      intro w hw
      rw [← h] at hw
      cases List.mem_cons.mp hw with
      | inl hw0 =>
        have h0 : b0 < 256 := hb b0 (by simp)
        have h1 : b1 < 256 := hb b1 (by simp)
        omega
      | inr hw0 =>
        exact bytesToHalfWords_lt rest ws' (fun b hbm => hb b (by simp [hbm])) hrest w hw0

/-- Serializing 32-bit words quadruples the length. -/
theorem wordsToBytes32_length : ∀ ws : List Nat, (wordsToBytes32 ws).length = 4 * ws.length
  | [] => rfl
  | w :: ws => by
    simp [wordsToBytes32, wordsToBytes32_length ws]
    omega

/-- The widened bit pattern always fits in 32 bits. -/
theorem float16ToFloat32Bits_lt (b : Nat) : float16ToFloat32Bits b < 4294967296 := by
  simp only [float16ToFloat32Bits]
  split_ifs with he0 hf0 he31
  · omega
  · obtain ⟨h1, h10, hlo, hhi⟩ := halfFracBitLen_spec (b % 2 ^ 10) (by omega) (by omega)
    set L := halfFracBitLen (b % 2 ^ 10)
    clear_value L
    interval_cases L <;> norm_num at hhi ⊢ <;> omega
  · omega
  · omega

/-- Little-endian 32-bit serialization round-trips through decoding. -/
theorem bytesToWords32_roundtrip :
    ∀ ws : List Nat, (∀ w ∈ ws, w < 4294967296) →
      bytesToWords32 (wordsToBytes32 ws) = some ws
  | [], _ => rfl
  | w :: ws, h => by
    have hw : w < 4294967296 := h w (by simp)
    have hrest := bytesToWords32_roundtrip ws (fun x hx => h x (by simp [hx]))
    simp only [wordsToBytes32, bytesToWords32, hrest, Option.map_some',
      Option.some.injEq, List.cons.injEq, and_true]
    omega

/-- Graph whose only HALF tensor sits inside a `TENSORS`-list attribute of a
non-Cast node; the rewrite does not visit such attributes. -/
def cexGraphC1 : GraphProto :=
  { node := [{ op_type := "Foo",
               attrs := [{ name := "value", type := AttributeProto.TENSORS,
                           tensors := [{ name := "c0", data_type := 10,
                                         raw_data := [0, 60] }] }] }] }

/-- Claim C1 is false as stated: on a graph whose only HALF TensorView lives
in a list-of-tensors attribute, the rewrite succeeds while leaving the graph
unchanged, so a reachable HALF TensorView survives. -/
theorem claim_C1_counterexample :
    convertGraph cexGraphC1 = Except.ok cexGraphC1 ∧ graphHasHalfView cexGraphC1 = true :=
  ⟨rfl, rfl⟩

/-- Claim C1 (amended): after a successful rewrite no interface, output or
intermediate declaration is HALF, and no top-level constant or singleton
embedded-tensor attribute with a nonempty raw payload is HALF; HALF tensors
with empty payloads and tensors inside list-kind attributes are not
covered. -/
theorem claim_C1_amended (g g' : GraphProto) (h : convertGraph g = Except.ok g') :
    (∀ v ∈ g'.input, v.elem_type ≠ TensorProto.FLOAT16) ∧
    (∀ v ∈ g'.output, v.elem_type ≠ TensorProto.FLOAT16) ∧
    (∀ v ∈ g'.value_info, v.elem_type ≠ TensorProto.FLOAT16) ∧
    (∀ t ∈ g'.initializer, t.raw_data ≠ [] → t.data_type ≠ TensorProto.FLOAT16) ∧
    (∀ n ∈ g'.node, ∀ a ∈ n.attrs, a.type = AttributeProto.TENSOR →
      a.t.raw_data ≠ [] → a.t.data_type ≠ TensorProto.FLOAT16) := by
  obtain ⟨-, hinit, hin, hout, hvi, hnode⟩ := convertGraph_ok_inv g g' h
  refine ⟨?_, ?_, ?_, ?_, ?_⟩
  · rw [hin]
    intro v hv
    obtain ⟨v0, -, hv0⟩ := List.mem_map.mp hv
    rw [← hv0]
    exact convertValueInfo_not_half v0
  · rw [hout]
    intro v hv
    obtain ⟨v0, -, hv0⟩ := List.mem_map.mp hv
    rw [← hv0]
    exact convertValueInfo_not_half v0
  · rw [hvi]
    intro v hv
    obtain ⟨v0, -, hv0⟩ := List.mem_map.mp hv
    rw [← hv0]
    exact convertValueInfo_not_half v0
  · intro t ht hraw
    obtain ⟨t0, -, ht0⟩ := mapE_ok_mem convertTensorFp16 _ _ hinit t ht
    exact convertTensorFp16_ok_not_half t0 t ht0 hraw
  · intro n hn a ha hat hraw
    obtain ⟨n0, -, hn0⟩ := mapE_ok_mem convertNode _ _ hnode n hn
    obtain ⟨-, -, -, -, hattrs⟩ := convertNode_ok_inv n0 n hn0
    obtain ⟨a0, -, ha0⟩ := mapE_ok_mem convertAttr _ _ hattrs a ha
    have ht0 : a0.type = AttributeProto.TENSOR := by
      rw [← (convertAttr_ok_fields a0 a ha0).2.1]
      exact hat
    exact convertTensorFp16_ok_not_half a0.t a.t (convertAttr_ok_t a0 a ht0 ha0) hraw

/-- Input graph for the C1 witness: a HALF constant with raw payload and a
HALF-typed graph input. -/
def wGraphC1 : GraphProto :=
  { initializer := [{ name := "w", data_type := 10, raw_data := [0, 60] }],
    input := [{ name := "x", elem_type := 10 }] }

/-- Converted form of `wGraphC1`. -/
def wGraphC1conv : GraphProto :=
  { initializer := [{ name := "w", data_type := 1, raw_data := [0, 0, 128, 63] }],
    input := [{ name := "x", elem_type := 1 }] }

/-- Witness instantiating the amended claim C1 on a concrete graph. -/
theorem claim_C1_witness :
    convertGraph wGraphC1 = Except.ok wGraphC1conv ∧
    ((∀ v ∈ wGraphC1conv.input, v.elem_type ≠ TensorProto.FLOAT16) ∧
     (∀ v ∈ wGraphC1conv.output, v.elem_type ≠ TensorProto.FLOAT16) ∧
     (∀ v ∈ wGraphC1conv.value_info, v.elem_type ≠ TensorProto.FLOAT16) ∧
     (∀ t ∈ wGraphC1conv.initializer, t.raw_data ≠ [] →
        t.data_type ≠ TensorProto.FLOAT16) ∧
     (∀ n ∈ wGraphC1conv.node, ∀ a ∈ n.attrs, a.type = AttributeProto.TENSOR →
        a.t.raw_data ≠ [] → a.t.data_type ≠ TensorProto.FLOAT16)) :=
  ⟨rfl, claim_C1_amended wGraphC1 wGraphC1conv rfl⟩

/-- Claim C2: a HALF constant with a nonempty raw byte payload of even
length is decoded as little-endian half-precision words, widened exactly
element-wise, its byte length doubles and its tag becomes SINGLE. -/
theorem claim_C2 (t : TensorProto) (h10 : t.data_type = TensorProto.FLOAT16)
    (hne : t.raw_data ≠ []) (heven : t.raw_data.length % 2 = 0)
    (hbytes : ∀ b ∈ t.raw_data, b < 256) :
    ∃ ws t', bytesToHalfWords t.raw_data = some ws ∧
      convertTensorFp16 t = Except.ok t' ∧
      t'.name = t.name ∧
      t'.data_type = TensorProto.FLOAT ∧
      t'.raw_data.length = 2 * t.raw_data.length ∧
      bytesToWords32 t'.raw_data = some (ws.map float16ToFloat32Bits) ∧
      (∀ w ∈ ws, w < 65536 ∧ float32Val (float16ToFloat32Bits w) = half16Val w) := by
  obtain ⟨ws, hws⟩ := bytesToHalfWords_some_of_even t.raw_data heven
  have hNotEmpty : ¬ t.raw_data.isEmpty := by
    rw [List.isEmpty_iff]
    exact hne
  refine ⟨ws,
    { t with raw_data := wordsToBytes32 (ws.map float16ToFloat32Bits),
             data_type := TensorProto.FLOAT },
    hws, ?_, rfl, rfl, ?_, ?_, ?_⟩
  · rw [convertTensorFp16, if_pos h10, if_neg hNotEmpty, hws]
  · show (wordsToBytes32 (ws.map float16ToFloat32Bits)).length = 2 * t.raw_data.length
    rw [wordsToBytes32_length, List.length_map, bytesToHalfWords_length t.raw_data ws hws]
    omega
  · exact bytesToWords32_roundtrip (ws.map float16ToFloat32Bits)
      (fun w hw => by
        obtain ⟨w0, -, hw0⟩ := List.mem_map.mp hw
        rw [← hw0]
        exact float16ToFloat32Bits_lt w0)
  · intro w hw
    have hlt := bytesToHalfWords_lt t.raw_data ws hbytes hws w hw
    exact ⟨hlt, float16_widen_exact w hlt⟩

/-- Tensor for the C2 witness: halves 1.0, +infinity, the smallest positive
subnormal and negative zero. -/
def wTensorC2 : TensorProto :=
  { name := "v", data_type := 10, raw_data := [0, 60, 0, 124, 1, 0, 0, 128] }

/-- Witness instantiating claim C2 on a concrete HALF tensor. -/
theorem claim_C2_witness :
    wTensorC2.data_type = TensorProto.FLOAT16 ∧ wTensorC2.raw_data ≠ [] ∧
    wTensorC2.raw_data.length % 2 = 0 ∧ (∀ b ∈ wTensorC2.raw_data, b < 256) ∧
    (∃ ws t', bytesToHalfWords wTensorC2.raw_data = some ws ∧
      convertTensorFp16 wTensorC2 = Except.ok t' ∧
      t'.name = wTensorC2.name ∧
      t'.data_type = TensorProto.FLOAT ∧
      t'.raw_data.length = 2 * wTensorC2.raw_data.length ∧
      bytesToWords32 t'.raw_data = some (ws.map float16ToFloat32Bits) ∧
      (∀ w ∈ ws, w < 65536 ∧ float32Val (float16ToFloat32Bits w) = half16Val w)) :=
  ⟨rfl, by decide, rfl, by decide, claim_C2 wTensorC2 rfl (by decide) rfl (by decide)⟩

/-- Claim C3: the rewrite is idempotent — whenever it succeeds, running it
again on its output reproduces that output. -/
theorem claim_C3 (g g' : GraphProto) (h : convertGraph g = Except.ok g') :
    convertGraph g' = Except.ok g' :=
  convertGraph_idem g g' h

/-- Input graph for the C3 witness. -/
def wGraphC3 : GraphProto :=
  { value_info := [{ name := "t", elem_type := 10 }],
    node := [{ op_type := "Cast", attrs := [{ name := "to", type := 2, i := 10 }] }] }

/-- Converted form of `wGraphC3`. -/
def wGraphC3conv : GraphProto :=
  { value_info := [{ name := "t", elem_type := 1 }],
    node := [{ op_type := "Cast", attrs := [{ name := "to", type := 2, i := 1 }] }] }

/-- Witness instantiating claim C3 on a concrete graph. -/
theorem claim_C3_witness :
    convertGraph wGraphC3 = Except.ok wGraphC3conv ∧
    convertGraph wGraphC3conv = Except.ok wGraphC3conv :=
  ⟨rfl, claim_C3 wGraphC3 wGraphC3conv rfl⟩

/-- Graph with two HALF constants of odd byte length: two malformed sites. -/
def cexGraphC4 : GraphProto :=
  { initializer := [{ name := "a", data_type := 10, raw_data := [0] },
                    { name := "b", data_type := 10, raw_data := [0, 60, 0] }] }

/-- Claim C4 is false as stated: with two malformed HALF sites the run
aborts at the first one with a single error and produces no output graph at
all — the rest of the graph is not processed and the remaining site is not
surfaced. -/
theorem claim_C4_counterexample :
    badPayloadSites cexGraphC4 = 2 ∧
    convertGraph cexGraphC4 = Except.error bufferSizeError :=
  ⟨rfl, rfl⟩

/-- Claim C4 (amended): a HALF tensor of odd byte length fails loudly — the
per-tensor conversion raises the numpy buffer-size error — and the
enclosing graph conversion aborts without producing any output, rather than
continuing to surface the remaining sites. -/
theorem claim_C4_amended (t : TensorProto) (h10 : t.data_type = TensorProto.FLOAT16)
    (hodd : t.raw_data.length % 2 = 1) :
    convertTensorFp16 t = Except.error bufferSizeError ∧
    (∀ g : GraphProto, t ∈ g.initializer → ∀ g', convertGraph g ≠ Except.ok g') := by
  have herr : convertTensorFp16 t = Except.error bufferSizeError := by
    have hne : ¬ t.raw_data.isEmpty := by
      rw [List.isEmpty_iff]
      intro hc
      rw [hc] at hodd
      simp at hodd
    rw [convertTensorFp16, if_pos h10, if_neg hne, bytesToHalfWords_none_of_odd _ hodd]
  refine ⟨herr, ?_⟩
  intro g hmem g' hcontra
  obtain ⟨-, hinit, -, -, -, -⟩ := convertGraph_ok_inv g g' hcontra
  exact mapE_error_of_mem convertTensorFp16 g.initializer
    ⟨t, hmem, fun b hb => by rw [herr] at hb; cases hb⟩ g'.initializer hinit

/-- Odd-length HALF tensor for the C4 witness. -/
def wTensorC4 : TensorProto := { name := "o", data_type := 10, raw_data := [0, 60, 7] }

/-- Witness instantiating the amended claim C4 on a concrete tensor. -/
theorem claim_C4_witness :
    wTensorC4.data_type = TensorProto.FLOAT16 ∧ wTensorC4.raw_data.length % 2 = 1 ∧
    (convertTensorFp16 wTensorC4 = Except.error bufferSizeError ∧
      (∀ g : GraphProto, wTensorC4 ∈ g.initializer → ∀ g',
        convertGraph g ≠ Except.ok g')) :=
  ⟨rfl, rfl, claim_C4_amended wTensorC4 rfl rfl⟩

/-- Claim C5: on a successful rewrite, every `Cast` node attribute named
`to` of scalar-int kind holding HALF ends up holding SINGLE, in place. -/
theorem claim_C5 (g g' : GraphProto) (h : convertGraph g = Except.ok g')
    (i j : Nat) (n : NodeProto) (hn : g.node[i]? = some n) (hcast : n.op_type = "Cast")
    (a : AttributeProto) (ha : n.attrs[j]? = some a) (hname : a.name = "to")
    (hkind : a.type = 2) (hval : a.i = TensorProto.FLOAT16) :
    ∃ n' a', g'.node[i]? = some n' ∧ n'.op_type = "Cast" ∧ n'.attrs[j]? = some a' ∧
      a'.name = "to" ∧ a'.type = 2 ∧ a'.i = TensorProto.FLOAT := by
  obtain ⟨-, -, -, -, -, hnode⟩ := convertGraph_ok_inv g g' h
  obtain ⟨n', hn'c, hn'⟩ := mapE_ok_getElem? convertNode _ _ hnode i n hn
  obtain ⟨-, hop, -, -, hattrs⟩ := convertNode_ok_inv n n' hn'c
  rw [if_pos hcast] at hattrs
  have hmapj : (n.attrs.map castFixAttr)[j]? = some (castFixAttr a) := by
    rw [List.getElem?_map, ha]
    rfl
  obtain ⟨a', ha'c, ha'⟩ := mapE_ok_getElem? convertAttr _ _ hattrs j (castFixAttr a) hmapj
  have hcfix : castFixAttr a = { a with i := TensorProto.FLOAT } := by
    rw [castFixAttr, if_pos ⟨hname, hval⟩]
  have hfields := convertAttr_ok_fields (castFixAttr a) a' ha'c
  refine ⟨n', a', hn', by rw [hop]; exact hcast, ha', ?_, ?_, ?_⟩
  · rw [hfields.1, hcfix]
    exact hname
  · rw [hfields.2.1, hcfix]
    exact hkind
  · rw [hfields.2.2.1, hcfix]

/-- Input graph for the C5 witness. -/
def wGraphC5 : GraphProto :=
  { node := [{ op_type := "Cast", attrs := [{ name := "to", type := 2, i := 10 }],
               input := ["x"], output := ["y"] }] }

/-- Witness instantiating claim C5 on a concrete Cast node. -/
theorem claim_C5_witness :
    convertGraph wGraphC5 =
      Except.ok { node := [{ op_type := "Cast",
                             attrs := [{ name := "to", type := 2, i := 1 }],
                             input := ["x"], output := ["y"] }] } ∧
    (∃ n' a',
      ({ node := [{ op_type := "Cast",
                    attrs := [{ name := "to", type := 2, i := 1 }],
                    input := ["x"], output := ["y"] }] } : GraphProto).node[0]? = some n' ∧
      n'.op_type = "Cast" ∧ n'.attrs[0]? = some a' ∧
      a'.name = "to" ∧ a'.type = 2 ∧ a'.i = TensorProto.FLOAT) :=
  ⟨rfl,
   claim_C5 wGraphC5 _ rfl 0 0
     { op_type := "Cast", attrs := [{ name := "to", type := 2, i := 10 }],
       input := ["x"], output := ["y"] }
     rfl rfl { name := "to", type := 2, i := 10 } rfl rfl rfl rfl⟩

/-- Claim C6: non-HALF tensors pass through byte-for-byte unchanged, and a
graph containing the HALF enum value nowhere is returned entirely
unchanged by the rewrite. -/
theorem claim_C6 :
    (∀ t : TensorProto, t.data_type ≠ TensorProto.FLOAT16 →
      convertTensorFp16 t = Except.ok t) ∧
    (∀ g : GraphProto, graphNoHalfAnywhere g = true → convertGraph g = Except.ok g) := by
  refine ⟨convertTensorFp16_of_ne, ?_⟩
  intro g hg
  rw [graphNoHalfAnywhere, Bool.and_eq_true, Bool.not_eq_true'] at hg
  obtain ⟨hview, hcast⟩ := hg
  rw [List.all_eq_true] at hcast
  have hinitid : ∀ t ∈ g.initializer, convertTensorFp16 t = Except.ok t := by
    intro t ht
    apply convertTensorFp16_of_ne
    intro hdt
    have htrue : graphHasHalfView g = true := by
      rw [graphHasHalfView]
      simp only [Bool.or_eq_true, List.any_eq_true]
      exact Or.inl (Or.inl (Or.inl (Or.inl ⟨t, ht, by rw [hdt]; rfl⟩)))
    rw [htrue] at hview
    simp at hview
  have hvin : ∀ v ∈ g.input, convertValueInfo v = v := by
    intro v hv
    apply convertValueInfo_of_ne
    intro he
    have htrue : graphHasHalfView g = true := by
      rw [graphHasHalfView]
      simp only [Bool.or_eq_true, List.any_eq_true]
      exact Or.inl (Or.inl (Or.inl (Or.inr ⟨v, hv, by rw [he]; rfl⟩)))
    rw [htrue] at hview
    simp at hview
  have hvout : ∀ v ∈ g.output, convertValueInfo v = v := by
    intro v hv
    apply convertValueInfo_of_ne
    intro he
    have htrue : graphHasHalfView g = true := by
      rw [graphHasHalfView]
      simp only [Bool.or_eq_true, List.any_eq_true]
      exact Or.inl (Or.inl (Or.inr ⟨v, hv, by rw [he]; rfl⟩))
    rw [htrue] at hview
    simp at hview
  have hvvi : ∀ v ∈ g.value_info, convertValueInfo v = v := by
    intro v hv
    apply convertValueInfo_of_ne
    intro he
    have htrue : graphHasHalfView g = true := by
      rw [graphHasHalfView]
      simp only [Bool.or_eq_true, List.any_eq_true]
      exact Or.inl (Or.inr ⟨v, hv, by rw [he]; rfl⟩)
    rw [htrue] at hview
    simp at hview
  have hnodeid : ∀ n ∈ g.node, convertNode n = Except.ok n := by
    intro n hn
    have hattrid : ∀ a ∈ n.attrs, convertAttr a = Except.ok a := by
      intro a ha
      by_cases htp : a.type = AttributeProto.TENSOR
      · have hdt : a.t.data_type ≠ TensorProto.FLOAT16 := by
          intro hdt
          have htrue : graphHasHalfView g = true := by
            rw [graphHasHalfView]
            simp only [Bool.or_eq_true, List.any_eq_true]
            refine Or.inr ⟨n, hn, a, ha, Or.inl ?_⟩
            rw [htp, hdt]
            rfl
          rw [htrue] at hview
          simp at hview
        rw [convertAttr, if_pos htp, convertTensorFp16_of_ne a.t hdt]
      · exact convertAttr_of_ne a htp
    have hfix : (if n.op_type = "Cast" then n.attrs.map castFixAttr else n.attrs) = n.attrs := by
      split_ifs with hc
      · apply map_eq_self_of_forall
        intro a ha
        apply castFixAttr_of_not_cond
        intro hcond
        have hball := hcast n hn
        rw [List.all_eq_true] at hball
        have hb := hball a ha
        rw [hcond.1, hcond.2] at hb
        simp at hb
      · rfl
    simp only [convertNode, hfix, mapE_ok_of_forall convertAttr n.attrs hattrid]
  simp only [convertGraph, mapE_ok_of_forall convertTensorFp16 g.initializer hinitid,
    mapE_ok_of_forall convertNode g.node hnodeid,
    map_eq_self_of_forall convertValueInfo g.input hvin,
    map_eq_self_of_forall convertValueInfo g.output hvout,
    map_eq_self_of_forall convertValueInfo g.value_info hvvi]

/-- Graph without any HALF occurrence for the C6 witness: a SINGLE constant,
an integer-typed input and a non-Cast node carrying an int attribute. -/
def wGraphC6 : GraphProto :=
  { initializer := [{ name := "k", data_type := 1, raw_data := [1, 2, 3, 4] }],
    input := [{ name := "i", elem_type := 6 }],
    node := [{ op_type := "Relu", attrs := [{ name := "axis", type := 2, i := 10 }] }] }

/-- Witness instantiating claim C6 on a concrete HALF-free graph. -/
theorem claim_C6_witness :
    graphNoHalfAnywhere wGraphC6 = true ∧ convertGraph wGraphC6 = Except.ok wGraphC6 :=
  ⟨rfl, claim_C6.2 wGraphC6 rfl⟩

/-- Batch whose first file converts with an uncaught numpy error and whose
second file would convert fine. -/
def cexBatchC7 : List ModelFile :=
  [⟨true, LoadResult.loaded { initializer := [{ name := "z", data_type := 10,
                                                raw_data := [0] }] }⟩,
   ⟨true, LoadResult.loaded {}⟩]

/-- Claim C7 is false as stated: a conversion failure on the first file
aborts the whole run — the second file is never processed (no outcome is
recorded for it). -/
theorem claim_C7_counterexample :
    runBatch cexBatchC7 = ([], some bufferSizeError) ∧ cexBatchC7.length = 2 :=
  ⟨rfl, rfl⟩

/-- Claim C7 (amended): a load failure is caught, reported and the batch
continues with the next file, as does a missing input file; but an error
raised by the conversion itself is uncaught and aborts the whole run. -/
theorem claim_C7_amended :
    (∀ (file : ModelFile) (rest : List ModelFile) (m : String),
      file.present = true → file.load = LoadResult.failure m →
      runBatch (file :: rest) =
        (FileOutcome.loadFailed :: (runBatch rest).1, (runBatch rest).2)) ∧
    (∀ (file : ModelFile) (rest : List ModelFile) (g : GraphProto) (e : String),
      file.present = true → file.load = LoadResult.loaded g →
      convertGraph g = Except.error e →
      runBatch (file :: rest) = ([], some e)) ∧
    (∀ (file : ModelFile) (rest : List ModelFile),
      file.present = false →
      runBatch (file :: rest) =
        (FileOutcome.skipped :: (runBatch rest).1, (runBatch rest).2)) := by
  refine ⟨?_, ?_, ?_⟩
  · intro file rest m hp hl
    simp [runBatch, processFile, hp, hl]
  · intro file rest g e hp hl he
    simp [runBatch, processFile, hp, hl, he]
  · intro file rest hp
    simp [runBatch, processFile, hp]

/-- File with a load failure for the C7 witness. -/
def wFileC7 : ModelFile := ⟨true, LoadResult.failure "not a valid protobuf"⟩

/-- Healthy file following the failing one in the C7 witness. -/
def wFileC7b : ModelFile := ⟨true, LoadResult.loaded {}⟩

/-- Witness instantiating the amended claim C7: the load failure is recorded
and the batch continues to the next file. -/
theorem claim_C7_witness :
    wFileC7.present = true ∧ wFileC7.load = LoadResult.failure "not a valid protobuf" ∧
    runBatch [wFileC7, wFileC7b] =
      (FileOutcome.loadFailed :: (runBatch [wFileC7b]).1, (runBatch [wFileC7b]).2) :=
  ⟨rfl, rfl, claim_C7_amended.1 wFileC7 [wFileC7b] "not a valid protobuf" rfl rfl⟩

/-- Claim C8: the reconciliation records, in order, every identifier without
a mapping under missing-mapping and every mapped identifier whose source
path is absent under missing-on-disk, and an identifier whose mapped path
exists lands in neither list. -/
theorem claim_C8 (ids : List String) (m : List (String × String)) (pres : String → Bool) :
    reconcile ids m pres =
      (ids.filter (fun u => (dictLookup u m).isNone),
       ids.filterMap (fun u =>
         match dictLookup u m with
         | none => none
         | some p => if pres p then none else some (u, p))) ∧
    (∀ u p, dictLookup u m = some p → pres p = true →
      u ∉ (reconcile ids m pres).1 ∧ ∀ q, (u, q) ∉ (reconcile ids m pres).2) := by
  have heq : ∀ ids' : List String,
      reconcile ids' m pres =
        (ids'.filter (fun u => (dictLookup u m).isNone),
         ids'.filterMap (fun u =>
           match dictLookup u m with
           | none => none
           | some p => if pres p then none else some (u, p))) := by
    intro ids'
    induction ids' with
    | nil => rfl
    | cons uid rest ih =>
      simp only [reconcile, ih, List.filter_cons, List.filterMap_cons]
      cases hl : dictLookup uid m with
      | none => simp [hl]
      | some p =>
        by_cases hp : pres p
        · simp [hl, hp]
        · simp [hl, hp]
  refine ⟨heq ids, ?_⟩
  intro u p hlk hp
  constructor
  · rw [heq ids]
    simp [List.mem_filter, hlk]
  · intro q hq
    rw [heq ids] at hq
    simp only [List.mem_filterMap] at hq
    obtain ⟨a, ha, hfa⟩ := hq
    cases hla : dictLookup a m with
    | none => rw [hla] at hfa; simp at hfa
    | some p' =>
      rw [hla] at hfa
      by_cases hpp : pres p'
      · simp [hpp] at hfa
      · simp only [hpp, if_false, Option.some.injEq, Prod.mk.injEq] at hfa
        obtain ⟨rfl, rfl⟩ := hfa
        rw [hlk] at hla
        injection hla with hpe
        exact hpp (hpe ▸ hp)

/-- Witness instantiating claim C8 on the specification's audit scenario:
identifiers a, b, c; a and b mapped; only a's source present. -/
theorem claim_C8_witness :
    reconcile ["a", "b", "c"] [("a", "/x/a.bin"), ("b", "/x/b.bin")]
        (fun p => p == "/x/a.bin") =
      (["c"], [("b", "/x/b.bin")]) := by
  rw [(claim_C8 ["a", "b", "c"] [("a", "/x/a.bin"), ("b", "/x/b.bin")]
    (fun p => p == "/x/a.bin")).1]
  rfl

/-- Lookup after a dict insertion: the inserted key reads back the new
value, every other key is unaffected. -/
theorem dictLookup_dictInsert {α β : Type} [DecidableEq α] (k k' : α) (v : β) :
    ∀ m : List (α × β),
      dictLookup k (dictInsert k' v m) = if k' = k then some v else dictLookup k m
  | [] => by
    simp only [dictInsert, dictLookup]
  | (k0, v0) :: rest => by
    by_cases h0 : k0 = k'
    · subst h0
      simp only [dictInsert, if_pos rfl, dictLookup]
      by_cases h1 : k0 = k
      · simp [h1]
      · simp [h1]
    · simp only [dictInsert, if_neg h0, dictLookup]
      rw [dictLookup_dictInsert k k' v rest]
      by_cases h1 : k0 = k
      · have h2 : ¬ k' = k := fun hc => h0 (h1.trans hc.symm)
        simp [h1, h2]
      · by_cases h2 : k' = k
        · simp [h1, h2]
        · simp [h1, h2]

/-- Folding manifest lines into the dict realizes last-write-wins lookup
over the extracted entry sequence. -/
theorem buildMappings_lookup_aux (k : List Char) :
    ∀ (lines : List (List Char)) (acc : List (List Char × List Char)),
      dictLookup k (lines.foldl buildStep acc) =
      (match lastWriteLookup (lines.filterMap processLine) k with
       | some v => some v
       | none => dictLookup k acc)
  | [], acc => by simp [lastWriteLookup]
  | line :: rest, acc => by
    simp only [List.foldl_cons, List.filterMap_cons]
    cases hpl : processLine line with
    | none =>
      simp only [hpl, buildStep]
      rw [buildMappings_lookup_aux k rest acc]
    | some e =>
      obtain ⟨ek, ev⟩ := e
      simp only [buildStep, hpl]
      rw [buildMappings_lookup_aux k rest (dictInsert ek ev acc)]
      cases hlast : lastWriteLookup (rest.filterMap processLine) k with
      | some v => simp [lastWriteLookup, hlast]
      | none =>
        simp only [lastWriteLookup, hlast, dictLookup_dictInsert]
        split_ifs <;> rfl

/-- Line for the C9 counterexample whose destination basename is
`m.onnx.onnx`, built without literal quote characters. -/
def cexLineC9 : List Char :=
  "src: ".data ++ [quoteChar] ++ "p1".data ++ [quoteChar] ++ ", dest: ".data ++
    [quoteChar] ++ "m.onnx.onnx".data ++ [quoteChar]

/-- Claim C9 is false as stated: on a destination basename `m.onnx.onnx`
the suffix-stripped identifier would be `m.onnx`, but the implementation
removes every occurrence of `.onnx` and keys the entry under `m`. -/
theorem claim_C9_counterexample :
    searchEntry cexLineC9 = some ("p1".data, "m.onnx.onnx".data) ∧
    stripSuffixOnnx (basenameChars "m.onnx.onnx".data) = "m.onnx".data ∧
    dictLookup "m.onnx".data (buildMappings [cexLineC9]) = none ∧
    dictLookup "m".data (buildMappings [cexLineC9]) = some "p1".data := by
  refine ⟨?_, ?_, ?_, ?_⟩ <;> rfl

/-- Claim C9 (amended): a non-commented line with matching `src:`/`dest:`
pattern contributes the entry whose key is the destination basename with
every `.onnx` occurrence removed (not only a trailing suffix) and whose
value is the source path, and looking up the accumulated mapping returns
the value of the last contributing line for that key (last-write-wins). -/
theorem claim_C9_amended (lines : List (List Char)) (k : List Char) :
    dictLookup k (buildMappings lines) =
      lastWriteLookup (lines.filterMap processLine) k ∧
    (∀ line src dest, searchEntry line = some (src, dest) →
      containsSub "src:".data line = true →
      containsSub "dest:".data line = true →
      containsSub "//".data (beforeFirst "src:".data line) = false →
      processLine line = some (removeAllOnnx (basenameChars dest), src)) := by
  constructor
  · rw [buildMappings, buildMappings_lookup_aux k lines []]
    cases hlast : lastWriteLookup (lines.filterMap processLine) k <;> rfl
  · intro line src dest hse h1 h2 h3
    simp [processLine, h1, h2, h3, hse]

/-- First witness line for C9: maps identifier `m` to path `pa`. -/
def wLineC9a : List Char :=
  "src: ".data ++ [quoteChar] ++ "pa".data ++ [quoteChar] ++ ", dest: ".data ++
    [quoteChar] ++ "m.onnx".data ++ [quoteChar]

/-- Second witness line for C9: maps identifier `m` to path `pb`. -/
def wLineC9b : List Char :=
  "src: ".data ++ [quoteChar] ++ "pb".data ++ [quoteChar] ++ ", dest: ".data ++
    [quoteChar] ++ "m.onnx".data ++ [quoteChar]

/-- Witness instantiating the amended claim C9 on two colliding manifest
lines; the lookup agrees with last-write-wins over the extracted entries. -/
theorem claim_C9_witness :
    dictLookup "m".data (buildMappings [wLineC9a, wLineC9b]) =
      lastWriteLookup ([wLineC9a, wLineC9b].filterMap processLine) "m".data :=
  (claim_C9_amended [wLineC9a, wLineC9b] "m".data).1

/-- Claim C10: a HALF constant with empty raw payload (its data living in
some other field) is left entirely unchanged by the rewrite — still
HALF-tagged, payload untouched — and raises no error. -/
theorem claim_C10 (t : TensorProto) (h10 : t.data_type = TensorProto.FLOAT16)
    (hraw : t.raw_data = []) :
    convertTensorFp16 t = Except.ok t ∧
    (∀ g g' : GraphProto, convertGraph g = Except.ok g' →
      ∀ i : Nat, g.initializer[i]? = some t → g'.initializer[i]? = some t) := by
  have hid := convertTensorFp16_of_empty t h10 hraw
  refine ⟨hid, ?_⟩
  intro g g' hg i hi
  obtain ⟨-, hinit, -, -, -, -⟩ := convertGraph_ok_inv g g' hg
  obtain ⟨b, hb1, hb2⟩ := mapE_ok_getElem? convertTensorFp16 _ _ hinit i t hi
  rw [hid] at hb1
  cases hb1
  exact hb2

/-- HALF tensor with empty raw payload (its data in `int32_data`) for the
C10 witness. -/
def wTensorC10 : TensorProto :=
  { name := "ext", data_type := 10, raw_data := [], int32_data := [15360, 16384] }

/-- Graph containing `wTensorC10` for the C10 witness. -/
def wGraphC10 : GraphProto := { initializer := [wTensorC10] }

/-- Witness instantiating claim C10 on a concrete empty-payload HALF
tensor: it survives a whole-graph conversion unchanged. -/
theorem claim_C10_witness :
    wTensorC10.data_type = TensorProto.FLOAT16 ∧ wTensorC10.raw_data = [] ∧
    (convertTensorFp16 wTensorC10 = Except.ok wTensorC10 ∧
      (∀ g g' : GraphProto, convertGraph g = Except.ok g' →
        ∀ i : Nat, g.initializer[i]? = some wTensorC10 →
          g'.initializer[i]? = some wTensorC10)) :=
  ⟨rfl, rfl, claim_C10 wTensorC10 rfl rfl⟩
